import Mathlib

/-!
Verification development for the tsdav request/response marshaling core
(`src/request.ts`, `src/addressBook.ts`).

The source is TypeScript.  The shallow embedding below models:
  * JavaScript values that occur in the marshaling pipeline (`JsVal`):
    plain objects are insertion-ordered association lists, repeated XML
    siblings are arrays, coerced leaves are scalars;
  * the three xml-js callbacks defined in `davRequest`
    (`elementNameFn` for outgoing and incoming documents, `attributesFn`,
    and the `textFn` parent-pointer mutation), translated from the source;
  * the xml-js compact tree builder that invokes those callbacks, modelled
    as a fold over a SAX event stream (start / text / end), following the
    library's documented compact conventions: each element becomes an
    object keyed by child element names in insertion order, a repeated
    child name is wrapped into an array, element attributes are stored
    under the `_attributes` key, and during parsing the current element is
    reachable from its parent (which is what the source's `textFn`
    exploits via `parentElement._parent`);
  * the post-exchange part of `davRequest` (raw-fallback decision,
    multistatus extraction, per-response normalization), and the
    credential dereference performed before the exchange;
  * `createObject` / `updateObject` / `deleteObject` credential handling
    and `syncCardDAVAccount` from `addressBook.ts`.

Utilities that the source imports from inside this repository but that are
not under `src/` (`util/camelCase`, `util/nativeType`, `util/requestHelpers`,
`types/models`) are modelled from the spec, as marked on each definition.
-/

namespace Tsdav

/-! ### JavaScript character classes

`isJsSpace` is the character class of the JavaScript regex `\s` (also the
set removed by `String.prototype.trim`); `jsDot` is the class matched by
`.` without the `s` flag (everything except line terminators). -/

def isJsSpace (c : Char) : Bool :=
  c = ' ' || c = '\t' || c = '\n' || c.val = 11 || c.val = 12 || c = '\r' ||
  c.val = 0xA0 || c.val = 0x1680 || (0x2000 ≤ c.val && c.val ≤ 0x200A) ||
  c.val = 0x2028 || c.val = 0x2029 || c.val = 0x202F || c.val = 0x205F ||
  c.val = 0x3000 || c.val = 0xFEFF

def jsDot (c : Char) : Bool :=
  !(c.val = 10 || c.val = 13 || c.val = 0x2028 || c.val = 0x2029)

def isDigit10 (c : Char) : Bool :=
  '0' ≤ c && c ≤ '9'

/-- JavaScript `String.prototype.trim` (used by xml-js under `trim: true`). -/
def trimJs (s : String) : String :=
  String.mk (((s.data.dropWhile isJsSpace).reverse.dropWhile isJsSpace).reverse)

def natOfDigits (l : List Char) : Nat :=
  l.foldl (fun n c => n * 10 + (c.toNat - 48)) 0

/-- Substring test (JavaScript `String.prototype.includes`), on char lists. -/
def startsWithSeq : List Char → List Char → Bool
  | [], _ => true
  | _ :: _, [] => false
  | a :: as, b :: bs => a = b && startsWithSeq as bs

def containsSeq (needle : List Char) : List Char → Bool
  | [] => startsWithSeq needle []
  | c :: rest => startsWithSeq needle (c :: rest) || containsSeq needle rest

/-! ### JavaScript values

`JsVal` is the dynamic value universe of the marshaling layer.  `pending`
stands for an element object that is still being built by the parser (the
object the JS code holds a live reference to); it never survives in the
result of parsing a well-formed document. -/

inductive JsVal where
  | undefined
  | pending
  | bool (b : Bool)
  | int (n : Int)
  | float (lit : String)
  | date (lit : String)
  | str (s : String)
  | arr (elems : List JsVal)
  | obj (fields : List (String × JsVal))
deriving Repr

/-- First-match association lookup (JS objects have unique keys). -/
def findField? : List (String × JsVal) → String → Option JsVal
  | [], _ => none
  | p :: fs, k => if p.1 = k then some p.2 else findField? fs k

def lookupField (fs : List (String × JsVal)) (k : String) : JsVal :=
  (findField? fs k).getD .undefined

/-- JS property assignment `o[k] = v`: overwrite in place if the key
exists (keeping its position), otherwise append. -/
def setField : List (String × JsVal) → String → JsVal → List (String × JsVal)
  | [], k, v => [(k, v)]
  | p :: fs, k, v => if p.1 = k then (k, v) :: fs else p :: setField fs k v

/-- JS property read `v.k` on a value already known to be defined:
objects use key lookup, everything else yields `undefined`. -/
def jsProp (v : JsVal) (k : String) : JsVal :=
  match v with
  | .obj fs => lookupField fs k
  | _ => .undefined

/-- JS truthiness test, negated (`!v`). -/
def falsy : JsVal → Bool
  | .undefined => true
  | .pending => false
  | .bool b => !b
  | .int n => n == 0
  | .float lit => lit.data.all (fun c => !isDigit10 c || c = '0')
  | .date _ => false
  | .str s => s.isEmpty
  | .arr _ => false
  | .obj _ => false

/-- JS string coercion (`String(v)`), as far as the pipeline exercises it:
the `statusRegex` is run on `responseBody.status`, which in practice is a
string or `undefined`.  Arrays join their elements with commas; objects
stringify to `"[object Object]"`. -/
def jsToString : JsVal → String
  | .undefined => "undefined"
  | .pending => "[object Object]"
  | .bool b => if b then "true" else "false"
  | .int n => toString n
  | .float lit => lit
  | .date lit => lit
  | .str s => s
  | .arr _ => ""
  | .obj _ => "[object Object]"

/-! ### Spec-modelled utilities (not under `src/`) -/

/-- Modelled from the spec: the Key Normalizer's camelCase step
(`src/util/camelCase`, not under `src/`).  "delimiter characters such as
hyphen are removed and the following character upper-cased;
already-camelCase or single-word input passes through unchanged."  The
delimiters are `-` and `_`; a trailing delimiter has no following
character to uppercase and passes through. -/
def camelCaseData : List Char → List Char
  | [] => []
  | c :: rest =>
    if c = '-' || c = '_' then
      match rest with
      | d :: r2 => d.toUpper :: camelCaseData r2
      | [] => [c]
    else c :: camelCaseData rest

def camelCase (s : String) : String :=
  String.mk (camelCaseData s.data)

def intLitDigits : List Char → Option (Bool × List Char)
  | '-' :: rest => if !rest.isEmpty && rest.all isDigit10 then some (true, rest) else none
  | '+' :: rest => if !rest.isEmpty && rest.all isDigit10 then some (false, rest) else none
  | l => if !l.isEmpty && l.all isDigit10 then some (false, l) else none

def isFloatCore (l : List Char) : Bool :=
  let intPart := l.takeWhile isDigit10
  match l.dropWhile isDigit10 with
  | '.' :: frac => !intPart.isEmpty && !frac.isEmpty && frac.all isDigit10
  | _ => false

def isFloatLit (s : String) : Bool :=
  match s.data with
  | '-' :: rest => isFloatCore rest
  | '+' :: rest => isFloatCore rest
  | l => isFloatCore l

def isDateLit (s : String) : Bool :=
  match s.data with
  | y1 :: y2 :: y3 :: y4 :: '-' :: m1 :: m2 :: '-' :: d1 :: d2 :: rest =>
    [y1, y2, y3, y4, m1, m2, d1, d2].all isDigit10 &&
      (rest.isEmpty || rest.headD ' ' = 'T')
  | _ => false

/-- Modelled from the spec: Type Coercion (`src/util/nativeType`, not
under `src/`).  "boolean literals checked first, then integer pattern (no
decimal point, optional sign), then floating-point pattern, then date
pattern, else original string"; the empty string stays a string. -/
def nativeType (s : String) : JsVal :=
  if s = "true" then .bool true
  else if s = "false" then .bool false
  else
    match intLitDigits s.data with
    | some (neg, ds) => .int (if neg then -(natOfDigits ds : Int) else (natOfDigits ds : Int))
    | none =>
      if isFloatLit s then .float s
      else if isDateLit s then .date s
      else .str s

/-! ### The xml-js callbacks, translated from `src/request.ts` -/

/-- The outgoing `elementNameFn` test `/^.+:.+/.test(name)` (line 47):
after at least one `.`-class character there is a colon followed by
another `.`-class character.  The leading `.+` may itself absorb colons,
so the regex accepts any name containing a colon at index at least 1 that
is preceded only by non-line-terminator characters and followed by a
non-line-terminator character. -/
def qualAfterOne : List Char → Bool
  | [] => false
  | c :: rest =>
    (c = ':' && (match rest with | d :: _ => jsDot d | [] => false))
      || (jsDot c && qualAfterOne rest)

def qualTest (s : String) : Bool :=
  match s.data with
  | [] => false
  | c :: rest => jsDot c && qualAfterOne rest

/-- Outgoing `elementNameFn` (lines 45-51): when a truthy `namespace` was
supplied and the name does not pass `/^.+:.+/`, emit
`namespace + ":" + name`, else the name unchanged. -/
def elementNameFnOutgoing (namespc : Option String) (name : String) : String :=
  match namespc with
  | some ns => if ns ≠ "" && !qualTest name then ns ++ ":" ++ name else name
  | none => name

/-- The incoming name rewrite `name.replace(/^.+:/, '')` (line 109).  The
greedy `.+` makes the match extend to the last colon that is at index at
least 1 and reachable without crossing a line terminator; the whole
matched prefix (up to and including that colon) is removed.
`lastColonSplit` scans the characters at index 1 onward and returns the
suffix after the last such colon. -/
def lastColonSplit : List Char → Option (List Char)
  | [] => none
  | c :: rest =>
    if c = ':' then
      match lastColonSplit rest with
      | some s => some s
      | none => some rest
    else if jsDot c then lastColonSplit rest
    else none

def stripQual (s : String) : String :=
  match s.data with
  | [] => s
  | c :: rest =>
    if jsDot c then
      match lastColonSplit rest with
      | some suffix => String.mk suffix
      | none => s
    else s

/-- Incoming `elementNameFn` (line 109):
`camelCase(attributeName.replace(/^.+:/, ''))`. -/
def elementNameFnIncoming (name : String) : String :=
  camelCase (stripQual name)

/-- `attributesFn` (lines 110-114): copy the attribute map and delete the
`xmlns` key (exactly that key; other keys keep order and value). -/
def attributesFn (attrs : List (String × String)) : List (String × String) :=
  attrs.filter (fun p => p.1 ≠ "xmlns")

def findAttr? : List (String × String) → String → Option String
  | [], _ => none
  | p :: fs, k => if p.1 = k then some p.2 else findAttr? fs k

/-! ### The status-line regex of `davRequest`

`/^\S+\s(?<status>\d+)\s(?<statusText>.+)$/` (line 123).  The greedy
`\S+` must end exactly where the first whitespace character starts, the
greedy `\d+` must end where the next whitespace character starts, and
`.+$` requires a nonempty line-terminator-free remainder reaching the end
of the string, captured as `statusText`. -/

def statusAfterDigits (digits rest : List Char) : Option (Nat × String) :=
  match rest with
  | c :: r2 =>
    if isJsSpace c then
      if !r2.isEmpty && r2.all jsDot then some (natOfDigits digits, String.mk r2)
      else none
    else none
  | [] => none

def statusAfterSpace (l : List Char) : Option (Nat × String) :=
  let digits := l.takeWhile isDigit10
  if digits.isEmpty then none
  else statusAfterDigits digits (l.dropWhile isDigit10)

def parseStatusLine (s : String) : Option (Nat × String) :=
  match s.data with
  | [] => none
  | c :: _ =>
    if isJsSpace c then none
    else
      match s.data.dropWhile (fun x => !isJsSpace x) with
      | sp :: r2 => if isJsSpace sp then statusAfterSpace r2 else none
      | [] => none

/-! ### The xml-js compact parse, as driven by `davRequest`

The incoming `convert.xml2js(resText, { compact: true, trim: true, ... })`
call is modelled as a fold over the SAX event stream of the response body.
The stack holds the element objects currently being built (head = the
current element, bottom = the document container); an element is entered
into its parent's field map as `pending` the moment it starts (that is the
slot the JS object reference occupies), and the completed object is filled
into that slot when the element ends, unless the source's `textFn` has
already replaced the slot with a coerced scalar. -/

structure Frame where
  name : String
  fields : List (String × JsVal)

inductive Ev where
  | start (name : String) (attrs : List (String × String))
  | text (s : String)
  | stop

/-- Register a starting child element under `k` in its parent's field map:
a fresh key is appended as a pending slot; an existing key is wrapped into
an array (if not one already) and the pending slot pushed at its end. -/
def addChildKey (fs : List (String × JsVal)) (k : String) :
    List (String × JsVal) :=
  match findField? fs k with
  | none => fs ++ [(k, .pending)]
  | some (.arr vs) => setField fs k (.arr (vs ++ [.pending]))
  | some v => setField fs k (.arr [v, .pending])

/-- The source's `textFn` (lines 87-107), acting on the field map of
`parentElement._parent`: take the most recently inserted key; if its value
is an array with positive `length`, overwrite the last slot with the
coerced text; if its `length` is positive but it is an immutable string,
the index assignment fails and is swallowed by the `catch`; any other
value (`length` is `undefined` or `0`) is replaced wholesale by the
coerced text.  Reading `length` of `undefined` throws and is swallowed. -/
def textFnMutate (t : String) (fs : List (String × JsVal)) :
    List (String × JsVal) :=
  match fs.getLast? with
  | none => fs
  | some (k, v) =>
    match v with
    | .undefined => fs
    | .arr vs =>
      if vs.length > 0 then setField fs k (.arr (vs.dropLast ++ [nativeType t]))
      else setField fs k (nativeType t)
    | .str s => if s.length > 0 then fs else setField fs k (nativeType t)
    | _ => setField fs k (nativeType t)

/-- On element end, fill the completed object into the pending slot it was
assigned at start; if `textFn` already replaced that slot with a scalar,
the object is discarded (the parent no longer references it). -/
def finishChild (fs : List (String × JsVal)) (k : String) (v : JsVal) :
    List (String × JsVal) :=
  match findField? fs k with
  | some .pending => setField fs k v
  | some (.arr vs) =>
    match vs.getLast? with
    | some .pending => setField fs k (.arr (vs.dropLast ++ [v]))
    | _ => fs
  | _ => fs

def startStep (name : String) (attrs : List (String × String))
    (stack : List Frame) : List Frame :=
  let ename := elementNameFnIncoming name
  let init : List (String × JsVal) :=
    if attrs.isEmpty then []
    else [("_attributes", .obj ((attributesFn attrs).map (fun p => (p.1, .str p.2))))]
  match stack with
  | par :: rest => ⟨ename, init⟩ :: { par with fields := addChildKey par.fields ename } :: rest
  | [] => [⟨ename, init⟩]

/-- A text node under `trim: true`: whitespace-only text is skipped;
otherwise xml-js stores the `textFn` return value (here `undefined`) under
`_text` on the current element, while the source's `textFn` mutates the
parent's field map as `textFnMutate` describes. -/
def textStep (s : String) (stack : List Frame) : List Frame :=
  let t := trimJs s
  if t = "" then stack
  else
    match stack with
    | cur :: par :: rest =>
      { cur with fields := setField cur.fields "_text" .undefined } ::
        { par with fields := textFnMutate t par.fields } :: rest
    | [cur] => [{ cur with fields := setField cur.fields "_text" .undefined }]
    | [] => []

def endStep (stack : List Frame) : List Frame :=
  match stack with
  | cur :: par :: rest =>
    { par with fields := finishChild par.fields cur.name (.obj cur.fields) } :: rest
  | other => other

def step (stack : List Frame) (e : Ev) : List Frame :=
  match e with
  | .start n a => startStep n a stack
  | .text s => textStep s stack
  | .stop => endStep stack

/-- Parse an event stream into the compact result object (the fields of
the bottom container frame). -/
def xmljsParse (evs : List Ev) : JsVal :=
  match (evs.foldl step [⟨"", []⟩]).getLast? with
  | some f => .obj f.fields
  | none => .obj []

/-! ### `davRequest` after the exchange (lines 66-152) -/

structure TransportResponse where
  ok : Bool
  status : Nat
  statusText : String
  url : String
  contentType : Option String
  bodyText : String

/-- One entry of the `DAVResponse[]` result.  An `Option` field is `none`
when the corresponding key is absent from the record the source builds
(the raw fallback and the falsy-response fallback omit keys). -/
structure DavResult where
  raw : Option JsVal
  href : Option JsVal
  status : Nat
  statusText : String
  ok : Bool
  error : Option JsVal
  responsedescription : Option JsVal
  props : Option (List (String × JsVal))

/-- `davResponse.headers.get('content-type')?.includes('xml')`: a missing
header short-circuits to `undefined` (falsy); a present one is a substring
test. -/
def ctHeaderXml : Option String → Bool
  | none => false
  | some s => containsSeq ("xml".data) s.data

/-- The raw fallback entry (lines 73-81). -/
def rawFallback (resp : TransportResponse) : DavResult :=
  { raw := some (.str resp.bodyText)
    href := some (.str resp.url)
    status := resp.status
    statusText := resp.statusText
    ok := resp.ok
    error := none
    responsedescription := none
    props := none }

/-- `...curr?.prop` object spread: objects contribute their fields,
arrays and strings contribute index-keyed entries, other primitives and
`undefined` contribute nothing. -/
def spreadFields : JsVal → List (String × JsVal)
  | .obj fs => fs
  | .arr vs => vs.enum.map (fun p => (toString p.1, p.2))
  | .str s => s.data.enum.map (fun p => (toString p.1, .str (String.mk [p.2])))
  | _ => []

/-- JS object spread merge `{...prev, ...curr}`: existing keys are
overwritten in place, new keys appended. -/
def mergeFields (a b : List (String × JsVal)) : List (String × JsVal) :=
  b.foldl (fun acc p => setField acc p.1 p.2) a

/-- Normalize `responseBody.propstat` to an array (lines 142-145). -/
def propstatList (rb : JsVal) : List JsVal :=
  match jsProp rb "propstat" with
  | .arr vs => vs
  | v => [v]

/-- The `props` fold (lines 142-150). -/
def propsFold (rb : JsVal) : List (String × JsVal) :=
  (propstatList rb).foldl
    (fun prev curr => mergeFields prev (spreadFields (jsProp curr "prop"))) []

/-- One entry of the `responseBodies.map` (lines 122-152). -/
def mapOneResponse (result : JsVal) (resp : TransportResponse) (rb : JsVal) :
    DavResult :=
  if falsy rb then
    { raw := none, href := none, status := resp.status,
      statusText := resp.statusText, ok := resp.ok, error := none,
      responsedescription := none, props := none }
  else
    let m := parseStatusLine (jsToString (jsProp rb "status"))
    { raw := some result
      href := some (jsProp rb "href")
      status := (m.map (fun p => p.1)).getD resp.status
      statusText := (m.map (fun p => p.2)).getD resp.statusText
      ok := falsy (jsProp rb "error")
      error := some (jsProp rb "error")
      responsedescription := some (jsProp rb "responsedescription")
      props := some (propsFold rb) }

/-- Multistatus extraction and per-response mapping (lines 118-152).
Reading `result.multistatus.response` throws when `multistatus` is absent
(property read on `undefined`). -/
def mapMultistatus (result : JsVal) (resp : TransportResponse) :
    Except String (List DavResult) :=
  match jsProp result "multistatus" with
  | .undefined => .error "TypeError: cannot read response of undefined"
  | ms =>
    let bodies : List JsVal :=
      match jsProp ms "response" with
      | .arr vs => vs
      | v => [v]
    .ok (bodies.map (mapOneResponse result resp))

/-! ### `davRequest` around the exchange, and the object helpers

Modelled from the spec where it concerns collaborators: the transport
exchange itself (digest-fetch) is out of scope; its observable outcome is
a `TransportResponse` and the SAX event stream of the response body.  The
non-null assertions `account!.credentials!` are erased at runtime, so a
missing account or missing credentials raises a `TypeError` while the
digest client is constructed, before any exchange. -/

structure DAVCredentials where
  username : String
  password : String

/-- Modelled from the spec: the `DAVAccount` model type
(`src/types/models`, not under `src/`): account type tag, URLs discovered
during bootstrapping, credentials, and the synced address books. -/
structure DAVAddressBook where
  url : String

structure DAVAccount where
  accountType : Option String
  credentials : Option DAVCredentials
  rootUrl : Option String
  homeUrl : Option String
  addressBooks : Option (List DAVAddressBook)

/-- `davRequest` (lines 26-153): serialize (not affecting the modelled
result), construct the digest client from `account!.credentials!`,
exchange, then either return the raw fallback or parse the body. -/
def davRequest (account : Option DAVAccount) (convertIncoming parseOutgoing : Bool)
    (resp : TransportResponse) (bodyEvents : List Ev) :
    Except String (List DavResult) :=
  let _ := convertIncoming
  match account with
  | none => .error "TypeError: account is undefined"
  | some a =>
    match a.credentials with
    | none => .error "TypeError: credentials is undefined"
    | some _ =>
      if !resp.ok || !ctHeaderXml resp.contentType || !parseOutgoing then
        .ok [rawFallback resp]
      else
        mapMultistatus (xmljsParse bodyEvents) resp

/-- `createObject` (lines 186-195): the digest client is constructed from
`account!.credentials!` before the PUT is issued. -/
def createObject (account : Option DAVAccount) (resp : TransportResponse) :
    Except String TransportResponse :=
  match account with
  | none => .error "TypeError: account is undefined"
  | some a =>
    match a.credentials with
    | none => .error "TypeError: credentials is undefined"
    | some _ => .ok resp

/-- `updateObject` (lines 197-211), same credential dereference. -/
def updateObject (account : Option DAVAccount) (etag : Option String)
    (resp : TransportResponse) : Except String TransportResponse :=
  let _ := etag
  match account with
  | none => .error "TypeError: account is undefined"
  | some a =>
    match a.credentials with
    | none => .error "TypeError: credentials is undefined"
    | some _ => .ok resp

/-- `deleteObject` (lines 213-225), same credential dereference. -/
def deleteObject (account : Option DAVAccount) (etag : Option String)
    (resp : TransportResponse) : Except String TransportResponse :=
  let _ := etag
  match account with
  | none => .error "TypeError: account is undefined"
  | some a =>
    match a.credentials with
    | none => .error "TypeError: credentials is undefined"
    | some _ => .ok resp

/-! ### The outgoing serializer (`convert.js2xml`, lines 35-54)

Modelled at the element-tree level: the compact input object is traversed
and every key becomes an element whose name passes through the outgoing
`elementNameFn`; nested objects become child elements, string values
become text children, arrays become repeated sibling elements of the same
(rewritten) name. -/

inductive PropTree where
  | leaf (text : String)
  | node (children : List (String × PropTree))
  | rep (items : List PropTree)

inductive XmlNode where
  | elem (name : String) (children : List XmlNode)
  | txt (s : String)

mutual

def serializeEntry (ns : Option String) (k : String) : PropTree → List XmlNode
  | .leaf s => [.elem (elementNameFnOutgoing ns k) [.txt s]]
  | .node ch => [.elem (elementNameFnOutgoing ns k) (serializeChildren ns ch)]
  | .rep items => serializeRep ns k items

def serializeRep (ns : Option String) (k : String) : List PropTree → List XmlNode
  | [] => []
  | t :: ts => serializeEntry ns k t ++ serializeRep ns k ts

def serializeChildren (ns : Option String) : List (String × PropTree) → List XmlNode
  | [] => []
  | (k, v) :: rest => serializeEntry ns k v ++ serializeChildren ns rest

end

/-! ### `syncCardDAVAccount` (`src/addressBook.ts`, lines 128-138) -/

/-- Modelled from the spec: URL comparison helper
(`src/util/requestHelpers`, not under `src/`); the sync result does not
depend on it. -/
def urlEquals (a b : String) : Bool :=
  a == b

/-- `syncCardDAVAccount`: computes `newAddressBooks` by filtering the
fetched books (keeping the ones whose URL already occurs in
`account.addressBooks`), discards it, and returns `{ accountType:
'carddav' }`. -/
def syncCardDAVAccount (account : DAVAccount) (fetched : List DAVAddressBook) :
    DAVAccount :=
  let _newAddressBooks :=
    fetched.filter (fun addr =>
      (account.addressBooks.getD []).any (fun a => urlEquals a.url addr.url))
  { accountType := some "carddav"
    credentials := none
    rootUrl := none
    homeUrl := none
    addressBooks := none }

/-! ### Views, helpers and concrete fixtures used by the theorems below -/

/-- First-`some` choice (JS `x ?? y` on option results). -/
def optOr (x y : Option JsVal) : Option JsVal :=
  match x with
  | some v => some v
  | none => y

/-- The spec-level attributes of a Multistatus Result (spec section 3
lists `href`, `status`, `ok`, `error`, `responsedescription`, `props`;
the source's extra `raw` debugging field is not part of that record). -/
def resultView (r : DavResult) :
    Option JsVal × Nat × String × Bool × Option JsVal × Option JsVal ×
      Option (List (String × JsVal)) :=
  (r.href, r.status, r.statusText, r.ok, r.error, r.responsedescription, r.props)

def hrefsOf : Except String (List DavResult) → List (Option JsVal)
  | .ok rs => rs.map (fun r => r.href)
  | .error _ => []

/-- A document whose `multistatus.response` field is the given value. -/
def mkMsDoc (v : JsVal) : JsVal :=
  .obj [("multistatus", .obj [("response", v)])]

/-- SAX events of one repeated leaf sibling `<b>t</b>`. -/
def sibGroup (t : String) : List Ev :=
  [.start "b" [], .text t, .stop]

/-- SAX events of `<a>` containing one `<b>` leaf per text. -/
def leafSiblingsDoc (texts : List String) : List Ev :=
  [.start "a" []] ++ (texts.map sibGroup).flatten ++ [.stop]

/-- SAX events of `<a><b>1</b><c>5</c><b>2</b></a>`: repeated `b` leaves
with a differently-named sibling between them. -/
def crossSiblingDoc : List Ev :=
  [.start "a" [], .start "b" [], .text "1", .stop,
   .start "c" [], .text "5", .stop,
   .start "b" [], .text "2", .stop, .stop]

/-- SAX events of a two-response multistatus document. -/
def twoResponseDoc : List Ev :=
  [.start "d:multistatus" [], .start "d:response" [],
   .start "d:href" [], .text "/a", .stop, .stop,
   .start "d:response" [], .start "d:href" [], .text "/b", .stop, .stop,
   .stop]

/-- SAX events of a multistatus document whose single response carries a
status line and an `<error>` element whose text content is `false`. -/
def errorFalseDoc : List Ev :=
  [.start "d:multistatus" [], .start "d:response" [],
   .start "d:href" [], .text "/x", .stop,
   .start "d:status" [], .text "HTTP/1.1 404 Not Found", .stop,
   .start "d:error" [], .text "false", .stop, .stop, .stop]

/-- The spec's serializer example `{ propfind: { prop: { displayname: {} } } }`. -/
def propfindExample : List (String × PropTree) :=
  [("propfind", .node [("prop", .node [("displayname", .node [])])])]

def credW : DAVCredentials :=
  ⟨"user", "pass"⟩

def acctW : DAVAccount :=
  ⟨none, some credW, none, none, none⟩

/-- A successful XML transport response fixture. -/
def respXmlW : TransportResponse :=
  ⟨true, 207, "Multi-Status", "http://cal.example/", some "application/xml; charset=utf-8", ""⟩

/-- A plain-text transport response fixture. -/
def respTextW : TransportResponse :=
  ⟨true, 200, "OK", "http://cal.example/x", some "text/plain", "hello"⟩

/-! ### Helper lemmas -/

theorem findField?_setField_self (fs : List (String × JsVal)) (k : String) (v : JsVal) :
    findField? (setField fs k v) k = some v := by
  induction fs with
  | nil => simp [setField, findField?]
  | cons p fs ih =>
    by_cases hp : p.1 = k
    · simp [setField, hp, findField?]
    · simp [setField, hp, findField?, ih]

theorem findField?_setField_other (fs : List (String × JsVal)) (k k' : String) (v : JsVal)
    (h : k' ≠ k) : findField? (setField fs k v) k' = findField? fs k' := by
  have hk : ¬(k = k') := fun hh => h hh.symm
  induction fs with
  | nil => simp [setField, findField?, hk]
  | cons p fs ih =>
    by_cases hp : p.1 = k
    · simp [setField, hp, findField?, hk]
    · by_cases hp' : p.1 = k'
      · simp [setField, hp, findField?, hp', h]
      · simp [setField, hp, findField?, hp', ih]

theorem findField?_append (fs gs : List (String × JsVal)) (k : String) :
    findField? (fs ++ gs) k = optOr (findField? fs k) (findField? gs k) := by
  induction fs with
  | nil => simp [findField?, optOr]
  | cons p fs ih =>
    by_cases h : p.1 = k
    · simp [findField?, h, optOr]
    · simp [findField?, h, ih]

theorem optOr_none_right (x : Option JsVal) : optOr x none = x := by
  cases x <;> rfl

theorem optOr_assoc (x y z : Option JsVal) :
    optOr (optOr x y) z = optOr x (optOr y z) := by
  cases x <;> rfl

theorem findSome?_append {α : Type} (f : (List (String × JsVal)) → Option α)
    (ls ms : List (List (String × JsVal))) :
    (ls ++ ms).findSome? f =
      (match ls.findSome? f with
       | some v => some v
       | none => ms.findSome? f) := by
  induction ls with
  | nil => simp
  | cons l ls ih =>
    rw [List.cons_append, List.findSome?_cons, List.findSome?_cons]
    cases f l <;> simp [ih]

theorem findField?_mergeFields (b a : List (String × JsVal)) (k : String) :
    findField? (mergeFields a b) k =
      optOr (findField? b.reverse k) (findField? a k) := by
  induction b generalizing a with
  | nil => simp [mergeFields, findField?, optOr]
  | cons p b ih =>
    show findField? (mergeFields (setField a p.1 p.2) b) k = _
    rw [ih, List.reverse_cons, findField?_append]
    by_cases hb : findField? b.reverse k = none
    · rw [hb]
      by_cases hk : p.1 = k
      · subst hk
        simp [findField?, optOr, findField?_setField_self]
      · simp [findField?, hk, optOr, findField?_setField_other a p.1 k p.2 (fun hh => hk hh.symm)]
    · rcases Option.ne_none_iff_exists'.mp hb with ⟨w, hw⟩
      simp [hw, optOr]

theorem nativeType_shape (s : String) :
    nativeType s ≠ .pending ∧ (∀ vs, nativeType s ≠ .arr vs) ∧
      nativeType s ≠ .undefined ∧ (∀ fs, nativeType s ≠ .obj fs) := by
  unfold nativeType
  split
  · simp
  · split
    · simp
    · split
      · simp
      · split
        · simp
        · split
          · simp
          · simp

theorem addChildKey_of_scalar (fs : List (String × JsVal)) (k : String) (x : JsVal)
    (hf : findField? fs k = some x) (harr : ∀ vs, x ≠ .arr vs) :
    addChildKey fs k = setField fs k (.arr [x, .pending]) := by
  unfold addChildKey
  rw [hf]
  cases x <;> first
    | rfl
    | exact absurd rfl (harr _)

theorem finishChild_of_scalar (fs : List (String × JsVal)) (k : String) (v x : JsVal)
    (hf : findField? fs k = some x) (hp : x ≠ .pending) (harr : ∀ vs, x ≠ .arr vs) :
    finishChild fs k v = fs := by
  unfold finishChild
  rw [hf]
  cases x <;> first
    | rfl
    | exact absurd rfl hp
    | exact absurd rfl (harr _)

theorem finishChild_arr_scalar_last (fs : List (String × JsVal)) (k : String)
    (v x : JsVal) (vs : List JsVal)
    (hf : findField? fs k = some (.arr (vs ++ [x]))) (hp : x ≠ .pending) :
    finishChild fs k v = fs := by
  have hlast : (vs ++ [x]).getLast? = some x := by simp
  unfold finishChild
  simp only [hf, hlast]
  cases x <;> first
    | rfl
    | exact absurd rfl hp

theorem findField?_foldl_merge (ms : List (List (String × JsVal)))
    (a : List (String × JsVal)) (k : String) :
    findField? (ms.foldl mergeFields a) k =
      optOr (ms.reverse.findSome? (fun m => findField? m.reverse k))
        (findField? a k) := by
  induction ms generalizing a with
  | nil => simp [optOr]
  | cons m ms ih =>
    rw [List.foldl_cons, ih, List.reverse_cons, findSome?_append,
      findField?_mergeFields]
    cases hS : ms.reverse.findSome? (fun m => findField? m.reverse k) with
    | none =>
      simp only [List.findSome?_cons, optOr]
      cases h2 : findField? m.reverse k <;> simp
    | some w => simp [optOr]

theorem qualAfterOne_iff (l : List Char) :
    qualAfterOne l = true ↔
      ∃ a d b, l = a ++ ':' :: d :: b ∧ a.all jsDot = true ∧ jsDot d = true := by
  induction l with
  | nil =>
    simp only [qualAfterOne]
    constructor
    · intro h
      exact absurd h (by simp)
    · rintro ⟨a, d, b, hl, -, -⟩
      exact absurd hl (by simp)
  | cons c rest ih =>
    simp only [qualAfterOne, Bool.or_eq_true, Bool.and_eq_true]
    constructor
    · rintro (⟨hc, hd⟩ | ⟨hdot, hq⟩)
      · have hc' : c = ':' := by simpa using hc
        cases rest with
        | nil => exact absurd hd (by simp)
        | cons d b =>
          exact ⟨[], d, b, by simp [hc'], rfl, by simpa using hd⟩
      · rcases ih.mp hq with ⟨a, d, b, hl, hall, hd⟩
        exact ⟨c :: a, d, b, by simp [hl], by simp [hall, hdot], hd⟩
    · rintro ⟨a, d, b, hl, hall, hd⟩
      cases a with
      | nil =>
        simp only [List.nil_append] at hl
        cases hl
        exact Or.inl ⟨by simp, by simpa using hd⟩
      | cons a0 as =>
        simp only [List.cons_append, List.cons.injEq] at hl
        rcases hl with ⟨hc0, hrest⟩
        simp only [List.all_cons, Bool.and_eq_true] at hall
        right
        refine ⟨hc0 ▸ hall.1, ih.mpr ⟨as, d, b, hrest, hall.2, hd⟩⟩

theorem qualTest_iff (s : String) :
    qualTest s = true ↔
      ∃ a d b, s.data = a ++ ':' :: d :: b ∧ a ≠ [] ∧ a.all jsDot = true ∧
        jsDot d = true := by
  unfold qualTest
  cases hs : s.data with
  | nil =>
    constructor
    · intro h
      exact absurd h (by simp)
    · rintro ⟨a, d, b, hl, ha, -, -⟩
      cases a with
      | nil => exact absurd hl (by simp)
      | cons a0 as => exact absurd hl (by simp)
  | cons c rest =>
    rw [Bool.and_eq_true, qualAfterOne_iff]
    constructor
    · rintro ⟨hdot, a, d, b, hl, hall, hd⟩
      exact ⟨c :: a, d, b, by simp [hl], by simp, by simp [hall, hdot], hd⟩
    · rintro ⟨a, d, b, hl, ha, hall, hd⟩
      cases a with
      | nil => exact absurd rfl ha
      | cons a0 as =>
        simp only [List.cons_append, List.cons.injEq] at hl
        rcases hl with ⟨hc0, hrest⟩
        simp only [List.all_cons, Bool.and_eq_true] at hall
        exact ⟨hc0 ▸ hall.1, as, d, b, hrest, hall.2, hd⟩

theorem lastColonSplit_eq_none (l : List Char) (h : ':' ∉ l) :
    lastColonSplit l = none := by
  induction l with
  | nil => rfl
  | cons c rest ih =>
    have hc : ¬(c = ':') := fun hh => h (hh ▸ List.mem_cons_self c rest)
    have hrest : ':' ∉ rest := fun hh => h (List.mem_cons_of_mem c hh)
    unfold lastColonSplit
    rw [if_neg hc]
    by_cases hd : jsDot c = true
    · rw [if_pos hd]
      exact ih hrest
    · rw [if_neg hd]

theorem lastColonSplit_concat (p s : List Char) (hall : p.all jsDot = true)
    (hs : ':' ∉ s) : lastColonSplit (p ++ ':' :: s) = some s := by
  induction p with
  | nil =>
    unfold lastColonSplit
    simp [lastColonSplit_eq_none s hs]
  | cons c p ih =>
    simp only [List.all_cons, Bool.and_eq_true] at hall
    rw [List.cons_append]
    unfold lastColonSplit
    by_cases hc : c = ':'
    · rw [if_pos hc, ih hall.2]
    · rw [if_neg hc, if_pos hall.1]
      exact ih hall.2

theorem foldl_step_siblings (ts : List String) (vs : List JsVal)
    (h : ∀ t ∈ ts, trimJs t ≠ "") :
    List.foldl step
        [⟨"a", [("b", .arr vs)]⟩, ⟨"", [("a", .pending)]⟩]
        ((ts.map sibGroup).flatten) =
      [⟨"a", [("b", .arr (vs ++ ts.map (fun t => nativeType (trimJs t))))]⟩,
       ⟨"", [("a", .pending)]⟩] := by
  induction ts generalizing vs with
  | nil => simp
  | cons t ts ih =>
    have ht : trimJs t ≠ "" := h t (by simp)
    rw [List.map_cons, List.flatten_cons, List.foldl_append]
    have s1 : step [⟨"a", [("b", .arr vs)]⟩, ⟨"", [("a", .pending)]⟩] (.start "b" []) =
        [⟨"b", []⟩, ⟨"a", [("b", .arr (vs ++ [.pending]))]⟩, ⟨"", [("a", .pending)]⟩] := rfl
    have s2 : step [⟨"b", []⟩, ⟨"a", [("b", .arr (vs ++ [.pending]))]⟩,
          ⟨"", [("a", .pending)]⟩] (.text t) =
        [⟨"b", [("_text", .undefined)]⟩,
         ⟨"a", [("b", .arr (vs ++ [nativeType (trimJs t)]))]⟩,
         ⟨"", [("a", .pending)]⟩] := by
      simp [step, textStep, ht, textFnMutate, setField, List.dropLast_concat]
    have s3 : step [⟨"b", [("_text", .undefined)]⟩,
          ⟨"a", [("b", .arr (vs ++ [nativeType (trimJs t)]))]⟩,
          ⟨"", [("a", .pending)]⟩] .stop =
        [⟨"a", [("b", .arr (vs ++ [nativeType (trimJs t)]))]⟩,
         ⟨"", [("a", .pending)]⟩] := by
      have hfin := finishChild_arr_scalar_last
        [("b", .arr (vs ++ [nativeType (trimJs t)]))] "b"
        (.obj [("_text", .undefined)]) (nativeType (trimJs t)) vs
        (by simp [findField?]) (nativeType_shape (trimJs t)).1
      simp [step, endStep, hfin]
    have h1 : List.foldl step
        [⟨"a", [("b", .arr vs)]⟩, ⟨"", [("a", .pending)]⟩] (sibGroup t) =
        [⟨"a", [("b", .arr (vs ++ [nativeType (trimJs t)]))]⟩,
         ⟨"", [("a", .pending)]⟩] := by
      simp only [sibGroup, List.foldl_cons, List.foldl_nil, s1, s2, s3]
    rw [h1, ih (vs ++ [nativeType (trimJs t)]) (fun t' ht' => h t' (by simp [ht']))]
    simp

theorem resultView_mapOne_eq (r1 r2 : JsVal) (resp : TransportResponse)
    (rb : JsVal) :
    resultView (mapOneResponse r1 resp rb) = resultView (mapOneResponse r2 resp rb) := by
  unfold mapOneResponse
  by_cases hf : falsy rb = true
  · rw [if_pos hf, if_pos hf]
  · rw [if_neg hf, if_neg hf]
    rfl

/-! ### Claim theorems -/

/-- Claim C1: after the exchange, if the transport reports a non-success
status, or the content-type header does not indicate XML, or
`parseOutgoing` is false, `davRequest` returns a single-element sequence
with the raw fallback entry carrying the transport's final URL as `href`,
its `ok`, `status`, `statusText`, and the body text verbatim, without
consulting the body's parse events; otherwise it parses the body and
returns the multistatus result sequence. -/
theorem davRequest_fallback_decision :
    ∀ (a : DAVAccount) (c : DAVCredentials) (ci po : Bool)
      (resp : TransportResponse) (ev ev' : List Ev),
      a.credentials = some c →
      ((resp.ok = false ∨ ctHeaderXml resp.contentType = false ∨ po = false) →
        davRequest (some a) ci po resp ev = .ok [rawFallback resp] ∧
        davRequest (some a) ci po resp ev = davRequest (some a) ci po resp ev') ∧
      ((resp.ok = true ∧ ctHeaderXml resp.contentType = true ∧ po = true) →
        davRequest (some a) ci po resp ev = mapMultistatus (xmljsParse ev) resp) ∧
      rawFallback resp =
        { raw := some (.str resp.bodyText), href := some (.str resp.url),
          status := resp.status, statusText := resp.statusText, ok := resp.ok,
          error := none, responsedescription := none, props := none } := by
  intro a c ci po resp ev ev' hc
  refine ⟨?_, ?_, rfl⟩
  · intro hcond
    have hb : (!resp.ok || !ctHeaderXml resp.contentType || !po) = true := by
      rcases hcond with h1 | h1 | h1 <;> simp [h1]
    constructor <;> simp [davRequest, hc, hb]
  · rintro ⟨h1, h2, h3⟩
    simp [davRequest, hc, h1, h2, h3]

theorem davRequest_fallback_decision_witness :
    davRequest (some acctW) true false respTextW [] = .ok [rawFallback respTextW] :=
  ((davRequest_fallback_decision acctW credW true false respTextW [] [] rfl).1
    (Or.inr (Or.inr rfl))).1

/-- Claim C2: mapping a multistatus document whose `response` field is a
sequence yields one result per response element in order, with `href`s
matching input order; a single-object `response` is normalized to a
one-element sequence and produces the same spec-level result record
(`href`, `status`, `statusText`, `ok`, `error`, `responsedescription`,
`props` — the source's extra `raw` debug field carries the whole parse
tree and is not part of the spec's Multistatus Result).  The closed
conjunct checks hrefs of a concretely parsed two-response document. -/
theorem multistatus_response_normalization :
    ∀ (resp : TransportResponse) (vs : List JsVal),
      (mapMultistatus (mkMsDoc (.arr vs)) resp =
        .ok (vs.map (mapOneResponse (mkMsDoc (.arr vs)) resp))) ∧
      ((vs.map (mapOneResponse (mkMsDoc (.arr vs)) resp)).map (fun r => r.href) =
        vs.map (fun v => if falsy v = true then none else some (jsProp v "href"))) ∧
      (∀ v : JsVal, (∀ l, v ≠ .arr l) →
        (mapMultistatus (mkMsDoc v) resp).map (fun rs => rs.map resultView) =
          (mapMultistatus (mkMsDoc (.arr [v])) resp).map (fun rs => rs.map resultView)) ∧
      hrefsOf (mapMultistatus (xmljsParse twoResponseDoc) respXmlW) =
        [some (.str "/a"), some (.str "/b")] := by
  intro resp vs
  refine ⟨rfl, ?_, ?_, rfl⟩
  · rw [List.map_map]
    apply List.map_congr_left
    intro v _
    by_cases hv : falsy v = true <;> simp [mapOneResponse, hv]
  · intro v hv
    cases v
    case arr l => exact absurd rfl (hv l)
    all_goals
      refine congrArg (fun z => Except.ok [z]) ?_
    all_goals
      exact resultView_mapOne_eq _ _ resp _

theorem multistatus_response_normalization_witness :
    (mapMultistatus (mkMsDoc (.obj [("href", .str "/a")])) respXmlW).map
        (fun rs => rs.map resultView) =
      (mapMultistatus (mkMsDoc (.arr [.obj [("href", .str "/a")]])) respXmlW).map
        (fun rs => rs.map resultView) :=
  (multistatus_response_normalization respXmlW []).2.2.1
    (.obj [("href", .str "/a")]) (fun _ h => JsVal.noConfusion h)

/-- Claim C3: the `props` of a response are the in-order fold of the
`prop` sub-mapping of each propstat block into one flat mapping; lookup in
the folded mapping returns the value from the latest propstat block whose
`prop` contains the key (later blocks win on collision), and a
single-object `propstat` yields the same `props` as the one-element
sequence containing it. -/
theorem propstat_props_fold_spec :
    ∀ (rb : JsVal) (k : String),
      (findField? (propsFold rb) k =
        ((propstatList rb).map (fun c => spreadFields (jsProp c "prop"))).reverse.findSome?
          (fun m => findField? m.reverse k)) ∧
      (∀ (v : JsVal) (rest : List (String × JsVal)), (∀ l, v ≠ .arr l) →
        propsFold (.obj (("propstat", v) :: rest)) =
          propsFold (.obj (("propstat", .arr [v]) :: rest))) := by
  intro rb k
  constructor
  · unfold propsFold
    rw [← List.foldl_map, findField?_foldl_merge]
    rw [show findField? ([] : List (String × JsVal)) k = none from rfl]
    rw [optOr_none_right]
  · intro v rest hv
    have h1 : propstatList (.obj (("propstat", v) :: rest)) = [v] := by
      cases v with
      | arr l => exact absurd rfl (hv l)
      | _ => rfl
    have h2 : propstatList (.obj (("propstat", .arr [v]) :: rest)) = [v] := rfl
    unfold propsFold
    rw [h1, h2]

theorem propstat_props_fold_spec_witness :
    propsFold (.obj [("propstat", .obj [("prop", .obj [("getctag", .int 5)])])]) =
      propsFold (.obj [("propstat", .arr [.obj [("prop", .obj [("getctag", .int 5)])]])]) :=
  (propstat_props_fold_spec (.obj []) "x").2
    (.obj [("prop", .obj [("getctag", .int 5)])]) [] (fun _ h => JsVal.noConfusion h)

/-- Claim C4, counterexample: the parsed document
`<multistatus><response><href>/x</href><status>HTTP/1.1 404 Not
Found</status><error>false</error></response></multistatus>` has a
response carrying an error payload (the `error` key is present, holding
the coerced text `false`), yet the produced result has `ok = true` —
refuting "ok is true if and only if the response carries no error
payload".  The status line is still parsed to 404 / "Not Found". -/
theorem response_ok_despite_error_payload :
    (mapMultistatus (xmljsParse errorFalseDoc) respXmlW).map
        (fun rs => rs.map (fun r => (r.error, r.ok, r.status, r.statusText))) =
      .ok [(some (.bool false), true, 404, "Not Found")] := rfl

/-- Claim C4, amended: if the response's `status` text matches the status
line pattern, the result's `status`/`statusText` are the parsed code and
reason; otherwise both fall back to the transport's values; and `ok` is
true if and only if the response's `error` field is absent or falsy (in
particular, for the typical case of an element-valued error payload, iff
no error element is present). -/
theorem mapOneResponse_status_ok_spec :
    ∀ (result : JsVal) (resp : TransportResponse) (rb : JsVal),
      falsy rb = false →
      (∀ code text,
        parseStatusLine (jsToString (jsProp rb "status")) = some (code, text) →
          (mapOneResponse result resp rb).status = code ∧
          (mapOneResponse result resp rb).statusText = text) ∧
      (parseStatusLine (jsToString (jsProp rb "status")) = none →
          (mapOneResponse result resp rb).status = resp.status ∧
          (mapOneResponse result resp rb).statusText = resp.statusText) ∧
      ((mapOneResponse result resp rb).ok = true ↔
        falsy (jsProp rb "error") = true) := by
  intro result resp rb hrb
  unfold mapOneResponse
  rw [if_neg (by simp [hrb])]
  refine ⟨?_, ?_, Iff.rfl⟩
  · intro code text hm
    rw [hm]
    exact ⟨rfl, rfl⟩
  · intro hm
    rw [hm]
    exact ⟨rfl, rfl⟩

theorem mapOneResponse_status_ok_spec_witness :
    (mapOneResponse (.obj []) respXmlW
        (.obj [("status", .str "HTTP/1.1 404 Not Found")])).status = 404 :=
  ((mapOneResponse_status_ok_spec (.obj []) respXmlW
      (.obj [("status", .str "HTTP/1.1 404 Not Found")]) rfl).1
    404 "Not Found" rfl).1

/-- Claim C5, counterexample: the name `:x` contains a colon but is not
emitted unchanged under default namespace `d` — the regex `^.+:.+`
requires a character before and after the colon, so `:x` is rewritten to
`d::x`, refuting "a name that already contains a colon is emitted
unchanged". -/
theorem outgoing_name_with_colon_changed :
    (":x").data.contains ':' = true ∧
    elementNameFnOutgoing (some "d") (":x") = "d::x" ∧
    elementNameFnOutgoing (some "d") (":x") ≠ (":x") := by
  refine ⟨rfl, rfl, ?_⟩
  decide

/-- Claim C5, amended: with a truthy default namespace, a name containing
a colon at index at least 1 that is preceded only by non-line-terminator
characters and followed by a non-line-terminator character (the matches of
`^.+:.+`) is emitted unchanged at every nesting depth, and every other
name — including names whose only colons are leading or trailing — is
emitted as `namespace:name`; serializing
`{ propfind: { prop: { displayname: {} } } }` with default namespace `d`
yields `<d:propfind><d:prop><d:displayname/></d:prop></d:propfind>`. -/
theorem elementNameFnOutgoing_spec :
    ∀ (ns name : String), ns ≠ "" →
      ((∃ a d b, name.data = a ++ ':' :: d :: b ∧ a ≠ [] ∧
          a.all jsDot = true ∧ jsDot d = true) →
        elementNameFnOutgoing (some ns) name = name) ∧
      (¬(∃ a d b, name.data = a ++ ':' :: d :: b ∧ a ≠ [] ∧
          a.all jsDot = true ∧ jsDot d = true) →
        elementNameFnOutgoing (some ns) name = ns ++ ":" ++ name) ∧
      serializeChildren (some "d") propfindExample =
        [.elem ("d:propfind") [.elem ("d:prop") [.elem ("d:displayname") []]]] := by
  intro ns name hns
  refine ⟨?_, ?_, rfl⟩
  · intro hex
    have hq : qualTest name = true := (qualTest_iff name).mpr hex
    simp [elementNameFnOutgoing, hq]
  · intro hnex
    have hq : qualTest name = false := by
      cases hq : qualTest name
      · rfl
      · exact absurd ((qualTest_iff name).mp hq) hnex
    simp [elementNameFnOutgoing, hq, hns]

theorem elementNameFnOutgoing_spec_witness :
    elementNameFnOutgoing (some "d") ("c:geo") = "c:geo" :=
  (elementNameFnOutgoing_spec "d" "c:geo" (by decide)).1
    ⟨['c'], 'g', ['e', 'o'], rfl, by decide, by decide, by decide⟩

/-- Claim C6, counterexample: `a:b:c` normalizes to `c`, not to
camelCase("b:c") — the greedy `^.+:` strips through the last colon, not
just the first segment. -/
theorem incoming_name_strips_beyond_first_segment :
    elementNameFnIncoming ("a:b:c") = "c" ∧
    camelCase ("b:c") = "b:c" ∧
    elementNameFnIncoming ("a:b:c") ≠ camelCase ("b:c") := by
  refine ⟨rfl, rfl, ?_⟩
  decide

/-- Claim C6, amended: the incoming Key Normalizer strips the longest
prefix ending in a colon (everything up to and including the last colon
at index at least 1, the prefix containing no line terminator), then
applies camelCase: whenever the name splits as `p ++ ":" ++ s` with `p`
nonempty and line-terminator-free and `s` colon-free, the result is
`camelCase s`, so `a:b:c` loses both `a:` and `b:`. -/
theorem elementNameFnIncoming_spec :
    ∀ (p s : List Char), p ≠ [] → p.all jsDot = true → ':' ∉ s →
      elementNameFnIncoming (String.mk (p ++ ':' :: s)) =
        camelCase (String.mk s) := by
  intro p s hne hall hs
  cases p with
  | nil => exact absurd rfl hne
  | cons c p' =>
    simp only [List.all_cons, Bool.and_eq_true] at hall
    unfold elementNameFnIncoming
    congr 1
    unfold stripQual
    simp only [List.cons_append]
    rw [if_pos hall.1, lastColonSplit_concat p' s hall.2 hs]

theorem elementNameFnIncoming_spec_witness :
    elementNameFnIncoming (String.mk (['a', ':', 'b'] ++ ':' :: ['c'])) =
      camelCase (String.mk ['c']) :=
  elementNameFnIncoming_spec ['a', ':', 'b'] ['c'] (by decide) (by decide)
    (by decide)

/-- Claim C7, counterexample: parsing
`<a><b>1</b><c>5</c><b>2</b></a>` — repeated `b` leaves with a
differently-named sibling between them — assigns the value coerced from
the second `b` leaf's text into sibling `c`'s slot (overwriting `c`'s own
coerced value 5 with 2), while the second `b` slot is left as an
uncoerced element object; this refutes "never assigns a coerced value to
a different sibling than the one whose text it came from". -/
theorem textFn_misdirects_interleaved_sibling :
    xmljsParse crossSiblingDoc =
      .obj [("a", .obj [("b", .arr [.int 1, .obj [("_text", .undefined)]]),
        ("c", .int 2)])] ∧
    jsProp (jsProp (xmljsParse crossSiblingDoc) "a") "c" = .int 2 ∧
    JsVal.int 2 ≠ JsVal.int 5 := by
  refine ⟨rfl, rfl, ?_⟩
  intro h
  injection h with h2
  exact absurd h2 (by decide)

/-- Claim C7, amended: when the repeated same-named leaf siblings are
consecutive children (no differently-named sibling intervening), every
coerced value is written back into its own sibling slot, in document
order; with an intervening sibling the later coercion is misdirected (see
the counterexample). -/
theorem consecutive_leaf_siblings_coerced_in_place :
    ∀ (t1 t2 : String) (ts : List String),
      trimJs t1 ≠ "" → trimJs t2 ≠ "" → (∀ t ∈ ts, trimJs t ≠ "") →
      xmljsParse (leafSiblingsDoc (t1 :: t2 :: ts)) =
        .obj [("a", .obj [("b",
          .arr ((t1 :: t2 :: ts).map (fun t => nativeType (trimJs t))))])] := by
  intro t1 t2 ts h1 h2 hts
  have x1d := nativeType_shape (trimJs t1)
  have x2d := nativeType_shape (trimJs t2)
  set x1 := nativeType (trimJs t1) with hx1
  set x2 := nativeType (trimJs t2) with hx2
  have s2 : step [⟨"b", []⟩, ⟨"a", [("b", .pending)]⟩, ⟨"", [("a", .pending)]⟩]
      (.text t1) =
      [⟨"b", [("_text", .undefined)]⟩, ⟨"a", [("b", x1)]⟩,
       ⟨"", [("a", .pending)]⟩] := by
    simp [step, textStep, h1, textFnMutate, setField]
  have s3 : step [⟨"b", [("_text", .undefined)]⟩, ⟨"a", [("b", x1)]⟩,
      ⟨"", [("a", .pending)]⟩] .stop =
      [⟨"a", [("b", x1)]⟩, ⟨"", [("a", .pending)]⟩] := by
    have hfin := finishChild_of_scalar [("b", x1)] "b" (.obj [("_text", .undefined)])
      x1 (by simp [findField?]) x1d.1 x1d.2.1
    simp [step, endStep, hfin]
  have s4 : step [⟨"a", [("b", x1)]⟩, ⟨"", [("a", .pending)]⟩]
      (.start "b" []) =
      [⟨"b", []⟩, ⟨"a", [("b", .arr [x1, .pending])]⟩,
       ⟨"", [("a", .pending)]⟩] := by
    have hb : elementNameFnIncoming "b" = "b" := rfl
    have ha := addChildKey_of_scalar [("b", x1)] "b" x1 (by simp [findField?])
      x1d.2.1
    simp [step, startStep, hb, ha, setField]
  have s5 : step [⟨"b", []⟩, ⟨"a", [("b", .arr [x1, .pending])]⟩,
      ⟨"", [("a", .pending)]⟩] (.text t2) =
      [⟨"b", [("_text", .undefined)]⟩, ⟨"a", [("b", .arr [x1, x2])]⟩,
       ⟨"", [("a", .pending)]⟩] := by
    simp [step, textStep, h2, textFnMutate, setField]
  have s6 : step [⟨"b", [("_text", .undefined)]⟩, ⟨"a", [("b", .arr [x1, x2])]⟩,
      ⟨"", [("a", .pending)]⟩] .stop =
      [⟨"a", [("b", .arr [x1, x2])]⟩, ⟨"", [("a", .pending)]⟩] := by
    have hfin := finishChild_arr_scalar_last [("b", .arr ([x1] ++ [x2]))] "b"
      (.obj [("_text", .undefined)]) x2 [x1] (by simp [findField?]) x2d.1
    simpa [step, endStep] using congrArg
      (fun fs => [(⟨"a", fs⟩ : Frame), ⟨"", [("a", .pending)]⟩]) hfin
  have hrest := foldl_step_siblings ts [x1, x2] hts
  have hfold : List.foldl step [⟨"", []⟩] (leafSiblingsDoc (t1 :: t2 :: ts)) =
      [⟨"", [("a", .obj [("b", .arr (x1 :: x2 :: ts.map (fun t => nativeType (trimJs t))))])]⟩] := by
    unfold leafSiblingsDoc
    rw [List.foldl_append, List.foldl_append, List.map_cons, List.map_cons,
      List.flatten_cons, List.flatten_cons, List.foldl_append, List.foldl_append]
    show List.foldl step
        (List.foldl step
          (List.foldl step
            (List.foldl step [⟨"b", []⟩, ⟨"a", [("b", .pending)]⟩, ⟨"", [("a", .pending)]⟩]
              [.text t1, .stop]) (sibGroup t2))
          ((ts.map sibGroup).flatten)) [.stop] = _
    rw [show List.foldl step [⟨"b", []⟩, ⟨"a", [("b", .pending)]⟩,
        ⟨"", [("a", .pending)]⟩] [.text t1, .stop] =
        [⟨"a", [("b", x1)]⟩, ⟨"", [("a", .pending)]⟩] by
      simp only [List.foldl_cons, List.foldl_nil, s2, s3]]
    rw [show List.foldl step [⟨"a", [("b", x1)]⟩, ⟨"", [("a", .pending)]⟩]
        (sibGroup t2) = [⟨"a", [("b", .arr [x1, x2])]⟩, ⟨"", [("a", .pending)]⟩] by
      simp only [sibGroup, List.foldl_cons, List.foldl_nil, s4, s5, s6]]
    rw [hrest]
    rfl
  unfold xmljsParse
  rw [hfold]
  rfl

theorem consecutive_leaf_siblings_coerced_in_place_witness :
    xmljsParse (leafSiblingsDoc ["1", "2"]) =
      .obj [("a", .obj [("b", .arr [.int 1, .int 2])])] :=
  consecutive_leaf_siblings_coerced_in_place "1" "2" []
    (by decide) (by decide) (by intro t ht; cases ht)

/-- Claim C8, counterexample: a prefixed namespace declaration such as
`xmlns:cs` is NOT absent from the normalized output — `attributesFn`
deletes exactly the literal `xmlns` key, so `xmlns:cs` survives with its
value, refuting the claim's assertion that prefixed declarations must be
absent. -/
theorem prefixed_xmlns_attribute_survives :
    jsProp (jsProp (xmljsParse [.start "a" [("xmlns", "X"), ("xmlns:cs", "Y")], .stop])
        "a") "_attributes" = .obj [("xmlns:cs", .str "Y")] ∧
    findAttr? (attributesFn [("xmlns", "X"), ("xmlns:cs", "Y")]) "xmlns:cs" =
      some "Y" := ⟨rfl, rfl⟩

/-- Claim C8, amended: on every element the literal `xmlns` attribute key
(and only that key) is dropped, and every other attribute — including
prefixed namespace declarations such as `xmlns:cs` — survives with its
value unchanged; a parsed element's `_attributes` object is exactly the
filtered attribute map. -/
theorem attributesFn_drops_only_xmlns :
    ∀ (attrs : List (String × String)),
      findAttr? (attributesFn attrs) "xmlns" = none ∧
      (∀ k, k ≠ "xmlns" → findAttr? (attributesFn attrs) k = findAttr? attrs k) ∧
      (∀ n : String, attrs ≠ [] →
        jsProp (jsProp (xmljsParse [.start n attrs, .stop]) (elementNameFnIncoming n))
            "_attributes" =
          .obj ((attributesFn attrs).map (fun p => (p.1, .str p.2)))) := by
  intro attrs
  refine ⟨?_, ?_, ?_⟩
  · induction attrs with
    | nil => rfl
    | cons p rest ih =>
      by_cases hp : p.1 = "xmlns"
      · rw [show attributesFn (p :: rest) = attributesFn rest by
          simp [attributesFn, List.filter_cons, hp]]
        exact ih
      · rw [show attributesFn (p :: rest) = p :: attributesFn rest by
          simp [attributesFn, List.filter_cons, hp]]
        show (if p.1 = "xmlns" then some p.2 else findAttr? (attributesFn rest) "xmlns") = none
        rw [if_neg hp]
        exact ih
  · intro k hk
    induction attrs with
    | nil => rfl
    | cons p rest ih =>
      by_cases hp : p.1 = "xmlns"
      · have hpk : ¬(p.1 = k) := by
          rw [hp]
          exact fun hh => hk hh.symm
        rw [show attributesFn (p :: rest) = attributesFn rest by
          simp [attributesFn, List.filter_cons, hp]]
        rw [ih]
        show findAttr? rest k = if p.1 = k then some p.2 else findAttr? rest k
        rw [if_neg hpk]
      · rw [show attributesFn (p :: rest) = p :: attributesFn rest by
          simp [attributesFn, List.filter_cons, hp]]
        show (if p.1 = k then some p.2 else findAttr? (attributesFn rest) k) =
          if p.1 = k then some p.2 else findAttr? rest k
        by_cases hpk : p.1 = k
        · rw [if_pos hpk, if_pos hpk]
        · rw [if_neg hpk, if_neg hpk]
          exact ih
  · intro n hne
    have hemp : attrs.isEmpty = false := by
      cases attrs with
      | nil => exact absurd rfl hne
      | cons p rest => rfl
    simp [xmljsParse, step, startStep, endStep, hemp, addChildKey, findField?,
      setField, finishChild, jsProp, lookupField]

theorem attributesFn_drops_only_xmlns_witness :
    findAttr? (attributesFn [("xmlns", "X"), ("foo", "Z")]) "foo" = some "Z" :=
  (attributesFn_drops_only_xmlns [("xmlns", "X"), ("foo", "Z")]).2.1 "foo"
    (by decide)

/-- Claim C9: when the optional `account` (or its `credentials`) is
missing, `davRequest`, `createObject`, `updateObject` and `deleteObject`
all fail with a TypeError raised while constructing the digest client —
before any transport exchange, and regardless of `convertIncoming` /
`parseOutgoing` — so a defined account with credentials is a precondition
of all four; the outcome is independent of the transport response and of
the response body events. -/
theorem credentials_precondition :
    ∀ (acct : Option DAVAccount) (ci po : Bool) (resp resp' : TransportResponse)
      (ev ev' : List Ev) (et : Option String),
      acct.bind DAVAccount.credentials = none →
      (∃ e, davRequest acct ci po resp ev = .error e) ∧
      davRequest acct ci po resp ev = davRequest acct ci po resp' ev' ∧
      (∃ e, createObject acct resp = .error e) ∧
      createObject acct resp = createObject acct resp' ∧
      (∃ e, updateObject acct et resp = .error e) ∧
      updateObject acct et resp = updateObject acct et resp' ∧
      (∃ e, deleteObject acct et resp = .error e) ∧
      deleteObject acct et resp = deleteObject acct et resp' := by
  intro acct ci po resp resp' ev ev' et h
  cases acct with
  | none =>
    exact ⟨⟨_, rfl⟩, rfl, ⟨_, rfl⟩, rfl, ⟨_, rfl⟩, rfl, ⟨_, rfl⟩, rfl⟩
  | some a =>
    cases hc : a.credentials with
    | some c => simp [hc] at h
    | none =>
      refine ⟨⟨"TypeError: credentials is undefined", ?_⟩, ?_,
        ⟨"TypeError: credentials is undefined", ?_⟩, ?_,
        ⟨"TypeError: credentials is undefined", ?_⟩, ?_,
        ⟨"TypeError: credentials is undefined", ?_⟩, ?_⟩ <;>
        simp [davRequest, createObject, updateObject, deleteObject, hc]

theorem credentials_precondition_witness :
    ∃ e, davRequest none true true respXmlW [] = .error e :=
  (credentials_precondition none true true respXmlW respTextW [] [] none rfl).1

/-- Claim C10: `syncCardDAVAccount` returns a record containing only
`accountType = 'carddav'` — no credentials, URLs or address books —
independently of the account and of whatever `fetchAddressBooks`
produced. -/
theorem syncCardDAVAccount_constant :
    ∀ (account account' : DAVAccount) (fetched fetched' : List DAVAddressBook),
      syncCardDAVAccount account fetched =
        { accountType := some "carddav", credentials := none, rootUrl := none,
          homeUrl := none, addressBooks := none } ∧
      (syncCardDAVAccount account fetched).addressBooks = none ∧
      syncCardDAVAccount account fetched = syncCardDAVAccount account' fetched' :=
  fun _ _ _ _ => ⟨rfl, rfl, rfl⟩

end Tsdav
